import Mathlib

/-!
Verification development for the innovcentric-hub thread aggregation and
activity classification engine (backend/src/workspace.js and its revisions,
the sent-activity module, and the all-mail classifier revision).

The JavaScript source is shallowly embedded: JS objects become structures,
`undefined`/missing fields become `Option`, network calls become functions of
an explicit environment (`GmailEnv`) returning `Except Unit _`, thrown
exceptions become `Except.error`, and in-place mutation of a thread's message
array (`messages.sort(...)`) is modelled by returning the post-state of the
thread alongside the result.  JS epoch timestamps (`internalDate`, parsed via
`parseInt`) are modelled as `Nat`; base64 decoding of message bodies is
abstracted by storing the decoded text directly.
-/

namespace Hub

/-! ## String helpers (JS string primitives over `List Char`) -/

/-- JS `String.prototype.includes`: `isPrefixOf` check at every suffix. -/
def hasSubstr (needle : List Char) : List Char → Bool
  | [] => needle.isEmpty
  | c :: cs => needle.isPrefixOf (c :: cs) || hasSubstr needle cs

/-- `hay.includes(needle)` for `String`s. -/
def strIncludes (hay needle : String) : Bool :=
  hasSubstr needle.data hay.data

/-- JS `String.prototype.toLowerCase` (ASCII-faithful). -/
def lowerStr (s : String) : String :=
  String.mk (s.data.map Char.toLower)

/-- JS `String.prototype.trim`: strip whitespace from both ends. -/
def trimStr (s : String) : String :=
  String.mk (((s.data.dropWhile Char.isWhitespace).reverse.dropWhile Char.isWhitespace).reverse)

/-- JS `str.replace(/"/g, '')`: remove every double quote. -/
def stripQuotes (s : String) : String :=
  String.mk (s.data.filter (fun c => c ≠ '"'))

/-- JS `str.split(sep)` for a single-character separator. -/
def splitOnCharAux (sep : Char) : List Char → List Char → List (List Char)
  | [], cur => [cur.reverse]
  | c :: cs, cur =>
    if c = sep then cur.reverse :: splitOnCharAux sep cs []
    else splitOnCharAux sep cs (c :: cur)

def splitOnChar (sep : Char) (s : String) : List String :=
  (splitOnCharAux sep s.data []).map String.mk

/-- JS `str.split('T')[0]` as used on the request's date strings. -/
def takeBeforeT (s : String) : String :=
  String.mk (s.data.takeWhile (fun c => c ≠ 'T'))

/-- First capture of the JS regex `/<([^>]+)>/`: the first `<...>` bracket
with a non-empty body closed by `>`; on failure the regex engine resumes at
the next position. -/
def extractAngleAux : List Char → Option String
  | [] => none
  | c :: cs =>
    if c = '<' then
      let inside := cs.takeWhile (fun x => x ≠ '>')
      if inside ≠ [] ∧ cs.dropWhile (fun x => x ≠ '>') ≠ [] then some (String.mk inside)
      else extractAngleAux cs
    else extractAngleAux cs

def extractAngle (s : String) : Option String :=
  extractAngleAux s.data

/-- JS `str.split('<')[0]`. -/
def takeBeforeAngle (s : String) : String :=
  String.mk (s.data.takeWhile (fun c => c ≠ '<'))

/-- Value of a decimal digit list, used to model JS `Number(...)`. -/
def digitsVal (cs : List Char) : Nat :=
  cs.foldl (fun n c => n * 10 + (c.toNat - '0'.toNat)) 0

/-- JS `Number(str)` restricted to the shapes the date parser meets:
the empty string is `0`, a plain digit string is its value, anything else is
`NaN` (modelled `none`). -/
def jsNumber? (cs : List Char) : Option Int :=
  if cs.isEmpty then some 0
  else if cs.all Char.isDigit then some (Int.ofNat (digitsVal cs)) else none

/-- `String(n).padStart(2, '0')`. -/
def pad2 (n : Int) : String :=
  let s := toString n
  if s.length < 2 then "0" ++ s else s

/-- Year field of `toISOString`, padded to four digits. -/
def pad4 (n : Int) : String :=
  let s := toString n
  if s.length < 4 then String.mk (List.replicate (4 - s.length) '0') ++ s else s

/-! ## Calendar arithmetic (JS `Date` civil-day behaviour) -/

/-- Days since 1970-01-01 of civil date `y-m-1` for `m ∈ [1,12]`
(Howard Hinnant's `days_from_civil`, floored-division form). -/
def daysFromCivilRaw (y m d : Int) : Int :=
  let y := if m ≤ 2 then y - 1 else y
  let era := y.fdiv 400
  let yoe := y - era * 400
  let doy := (153 * (if m > 2 then m - 3 else m + 9) + 2) / 5 + d - 1
  let doe := yoe * 365 + yoe / 4 - yoe / 100 + doy
  era * 146097 + doe - 719468

/-- Days since the epoch of `new Date(y, m - 1, d)`; JS normalises
out-of-range month/day fields by calendar rules. -/
def daysFromCivil (y m d : Int) : Int :=
  let y2 := y + (m - 1).fdiv 12
  let m2 := (m - 1).emod 12 + 1
  daysFromCivilRaw y2 m2 d

/-- Inverse: civil `(y, m, d)` of a day count since the epoch
(Hinnant's `civil_from_days`). -/
def civilFromDays (z : Int) : Int × Int × Int :=
  let z := z + 719468
  let era := z.fdiv 146097
  let doe := z - era * 146097
  let yoe := (doe - doe / 1460 + doe / 36524 - doe / 146096) / 365
  let y := yoe + era * 400
  let doy := doe - (365 * yoe + yoe / 4 - yoe / 100)
  let mp := (5 * doy + 2) / 153
  let d := doy - (153 * mp + 2) / 5 + 1
  let m := if mp < 10 then mp + 3 else mp - 9
  (if m ≤ 2 then y + 1 else y, m, d)

/-- `[year, month, day] = dateStr.split('-').map(Number)`. -/
def parseYMD (s : String) : Option (Int × Int × Int) :=
  match splitOnChar '-' s with
  | y :: m :: d :: _ => do
    let yv ← jsNumber? y.data
    let mv ← jsNumber? m.data
    let dv ← jsNumber? d.data
    pure (yv, mv, dv)
  | _ => none

/-- The `adjustDate` helper of `getUserActivity` / `getUserSentActivity`:
local-date construction, `setDate(getDate() + days)`, reformat.  An
unparsable input yields the JS `"NaN-NaN-NaN"` rendering. -/
def adjustDate (dateStr : String) (days : Int) : String :=
  match parseYMD dateStr with
  | none => "NaN-NaN-NaN"
  | some (y, m, d) =>
    let total := daysFromCivil y m d + days
    let (y2, m2, d2) := civilFromDays total
    toString y2 ++ "-" ++ pad2 m2 ++ "-" ++ pad2 d2

/-- `formatForGmail`: every dash of the date string replaced by a slash. -/
def formatForGmail (s : String) : String :=
  String.mk (s.data.map (fun c => if c = '-' then '/' else c))

/-- `new Date(ms).toISOString()` for a non-negative epoch in milliseconds. -/
def isoFromMillis (ms : Nat) : String :=
  let days := ms / 86400000
  let rem := ms % 86400000
  let (y, mo, d) := civilFromDays (Int.ofNat days)
  let hh := rem / 3600000
  let mi := rem % 3600000 / 60000
  let ss := rem % 60000 / 1000
  let msPart := rem % 1000
  pad4 y ++ "-" ++ pad2 mo ++ "-" ++ pad2 d ++ "T" ++ pad2 hh ++ ":" ++ pad2 mi
    ++ ":" ++ pad2 ss ++ "." ++ (let s := toString msPart;
      if s.length < 3 then String.mk (List.replicate (3 - s.length) '0') ++ s else s) ++ "Z"

/-! ## Query builders (§4.1): workspace.js lines 30-63, part_002 lines 7-35,
part_001 lines 58-69 -/

/-- workspace.js `getUserActivity` query construction (inbox scope):
`label:INBOX -in:trash -in:spam` plus adjusted date bounds. -/
def buildInboxQuery (startDate endDate : Option String) : String :=
  let query := "label:INBOX -in:trash -in:spam"
  let query := match startDate with
    | some s => query ++ " after:" ++ formatForGmail (adjustDate s (-1))
    | none => query
  match endDate with
  | some e => query ++ " before:" ++ formatForGmail (adjustDate e 1)
  | none => query

/-- part_002 `getUserSentActivity` query construction (sent scope). -/
def buildSentQuery (startDate endDate : Option String) : String :=
  let query := "label:SENT -in:trash -in:spam"
  let query := match startDate with
    | some s => query ++ " after:" ++ formatForGmail (adjustDate s (-1))
    | none => query
  match endDate with
  | some e => query ++ " before:" ++ formatForGmail (adjustDate e 1)
  | none => query

/-- Strict ISO `YYYY-MM-DD` acceptance of JS `new Date(endDate)`:
ten characters, digit fields, month and day in calendar range.  (JS also
accepts other formats; the backend only ever passes this shape.) -/
def parseIsoDateStrict (s : String) : Option (Int × Int × Int) :=
  match s.data with
  | [y1, y2, y3, y4, '-', m1, m2, '-', d1, d2] =>
    if [y1, y2, y3, y4, m1, m2, d1, d2].all Char.isDigit then
      let y := Int.ofNat (digitsVal [y1, y2, y3, y4])
      let m := Int.ofNat (digitsVal [m1, m2])
      let d := Int.ofNat (digitsVal [d1, d2])
      let dim :=
        if m = 1 ∨ m = 3 ∨ m = 5 ∨ m = 7 ∨ m = 8 ∨ m = 10 ∨ m = 12 then (31 : Int)
        else if m = 4 ∨ m = 6 ∨ m = 9 ∨ m = 11 then 30
        else if (y.emod 4 = 0 ∧ y.emod 100 ≠ 0) ∨ y.emod 400 = 0 then 29
        else 28
      if 1 ≤ m ∧ m ≤ 12 ∧ 1 ≤ d ∧ d ≤ dim then some (y, m, d) else none
    else none
  | _ => none

/-- part_001 `getUserActivity` query construction (all-mail scope):
`-in:trash -in:spam -in:drafts`, start date reformatted verbatim, end date
parsed (`new Date(endDate)`), advanced a day and rendered via `toISOString`;
an invalid end date makes `toISOString` throw (`Except.error`). -/
def buildAllMailQuery (startDate endDate : Option String) : Except Unit String :=
  let query := "-in:trash -in:spam -in:drafts"
  let query := match startDate with
    | some s => query ++ " after:" ++ formatForGmail s
    | none => query
  match endDate with
  | none => .ok query
  | some e =>
    match parseIsoDateStrict e with
    | none => .error ()
    | some (y, m, d) =>
      let (y2, m2, d2) := civilFromDays (daysFromCivil y m d + 1)
      .ok (query ++ " before:" ++ pad4 y2 ++ "/" ++ pad2 m2 ++ "/" ++ pad2 d2)

/-! ## Data model (§3): message/thread shapes of the Gmail JSON payloads -/

structure Header where
  name : String
  value : String
  deriving Repr, DecidableEq

structure Part where
  filename : String
  mimeType : String
  /-- `part.body.data`, base64-decoded text; `none` when absent. -/
  body : Option String
  deriving Repr, DecidableEq

structure Payload where
  headers : Option (List Header)
  parts : Option (List Part)
  /-- `payload.body.data`, base64-decoded text; `none` when absent. -/
  body : Option String
  deriving Repr, DecidableEq

structure RawMessage where
  id : String
  historyId : String
  /-- `parseInt(msg.internalDate)`, epoch milliseconds. -/
  internalDate : Nat
  labelIds : List String
  payload : Option Payload
  snippet : String
  deriving Repr, DecidableEq

structure RawThread where
  id : String
  messages : List RawMessage
  deriving Repr, DecidableEq

/-- Structured fields extracted by the external RTR collaborator (ai.js). -/
structure RtrFields where
  client : String
  rate : String
  candidate : String
  position : String
  location : String
  vendor : String
  date_context : String
  deriving Repr, DecidableEq

structure MessageStub where
  id : String
  threadId : String
  deriving Repr, DecidableEq

structure ListPage where
  messages : List MessageStub
  nextPageToken : Option String
  resultSizeEstimate : Nat
  deriving Repr, DecidableEq

structure CountPage where
  threadIds : List String
  nextPageToken : Option String
  deriving Repr, DecidableEq

/-- The provider as seen by the engine: every network call is a field.
`Except.error` models a thrown/rejected call. -/
structure GmailEnv where
  /-- `gmail.users.messages.list` (maxResults 100), query and page token. -/
  listPage : String → Option String → Except Unit ListPage
  /-- `gmail.users.messages.list` (maxResults 500, thread-id fields only). -/
  countPage : String → Option String → Except Unit CountPage
  /-- `gmail.users.threads.get`. -/
  getThread : String → Except Unit RawThread
  /-- `gmail.users.messages.get` (metadata): the recovered `payload?.headers`. -/
  getMessageHeaders : String → Except Unit (Option (List Header))
  /-- ai.js `extractRTRDetails(body, subject)`. -/
  extractRTR : String → String → Except Unit RtrFields
  /-- Local-timezone rendering of an epoch as `YYYY-MM-DD`
  (workspace.js lines 154-159); timezone database abstracted. -/
  localDate : Nat → String

/-! ## Message sorting: `messages.sort((a, b) => parseInt(a.internalDate) - parseInt(b.internalDate))` -/

/-- Comparator order of the in-place sort (stable, ascending timestamps). -/
def msgLe (a b : RawMessage) : Prop :=
  a.internalDate ≤ b.internalDate

instance : DecidableRel msgLe :=
  fun a b => inferInstanceAs (Decidable (a.internalDate ≤ b.internalDate))

instance : IsTotal RawMessage msgLe :=
  ⟨fun a b => Nat.le_total a.internalDate b.internalDate⟩

instance : IsTrans RawMessage msgLe :=
  ⟨fun _ _ _ h h' => Nat.le_trans h h'⟩

/-- The sorted message array (JS `Array.prototype.sort` is stable). -/
def sortMsgs (l : List RawMessage) : List RawMessage :=
  List.insertionSort msgLe l

/-- `headers.find(h => h.name === n)?.value`. -/
def findHeader (headers : List Header) (n : String) : Option String :=
  (headers.find? (fun h => h.name = n)).map (fun h => h.value)

/-- `m.labelIds.includes(lbl)`. -/
def hasLabel (m : RawMessage) (lbl : String) : Bool :=
  m.labelIds.contains lbl

/-! ## workspace.js `analyzeThread` (inbox revision, lines 204-277) -/

structure InboxAnalysis where
  is_inbox : Bool
  is_replied : Bool
  deriving Repr, DecidableEq

structure InboxClassified where
  id : String
  snippet : String
  historyId : String
  valid : Bool
  sort_epoch : Nat
  timestamp : Nat
  «from» : String
  subject : String
  analysis : InboxAnalysis
  deriving Repr, DecidableEq

/-- Header source for the counterparty fields: the primary message's headers,
then a metadata re-fetch of the primary message (errors swallowed), then the
latest message's headers (workspace.js lines 224-236). -/
def inboxFromHeaders (env : GmailEnv) (primaryMsg latestMsg : RawMessage) :
    Option (List Header) :=
  let fromHeaders := primaryMsg.payload.bind (fun p => p.headers)
  let fromHeaders :=
    if fromHeaders.isNone ∧ primaryMsg.id ≠ latestMsg.id then
      match env.getMessageHeaders primaryMsg.id with
      | .ok hs => hs
      | .error _ => fromHeaders
    else fromHeaders
  match fromHeaders with
  | none => latestMsg.payload.bind (fun p => p.headers)
  | some hs => some hs

/-- Field computation of `analyzeThread` for a non-empty sorted message list
`m :: ms` (workspace.js lines 212-276). -/
def classifyInboxMsgs (env : GmailEnv) (t : RawThread) (m : RawMessage)
    (ms : List RawMessage) : InboxClassified :=
  let messages := m :: ms
  let latestMsg := messages.getLast (List.cons_ne_nil m ms)
  let primaryMsg := m
  let latestTs := latestMsg.internalDate
  let fromHeaders := inboxFromHeaders env primaryMsg latestMsg
  let fromRaw := ((fromHeaders.bind (fun hs => findHeader hs "From")).getD "Unknown")
  let fromEmail := (extractAngle fromRaw).getD (trimStr (stripQuotes fromRaw))
  let fromName :=
    let n := trimStr (stripQuotes (takeBeforeAngle fromRaw))
    if n = "" then fromEmail else n
  let subjectRaw := (fromHeaders.bind (fun hs => findHeader hs "Subject")).getD "(No Subject)"
  let summary := latestMsg.snippet
  let isInbox := messages.any (fun mm => !(hasLabel mm "SENT"))
  let primaryIsInbound := !(hasLabel primaryMsg "SENT")
  let latestIsOutbound := hasLabel latestMsg "SENT"
  let replied := decide (messages.length > 1) && primaryIsInbound && latestIsOutbound
  { id := t.id
    snippet := summary
    historyId := latestMsg.historyId
    valid := true
    sort_epoch := latestTs
    timestamp := latestTs
    «from» := fromName
    subject := subjectRaw
    analysis := { is_inbox := isInbox, is_replied := replied } }

/-- workspace.js `analyzeThread`: sorts the thread's messages in place
(returned as the post-state thread), then classifies.  An empty thread is
rejected before the sort. -/
def analyzeThread (env : GmailEnv) (t : RawThread) :
    Option InboxClassified × RawThread :=
  match sortMsgs t.messages with
  | [] => (none, t)
  | m :: ms => (some (classifyInboxMsgs env t m ms), { t with messages := m :: ms })

/-! ## part_002 `analyzeSentThread` (lines 163-214) -/

structure SentAnalysis where
  is_inbox : Bool
  is_sent : Bool
  is_replied : Bool
  deriving Repr, DecidableEq

structure SentClassified where
  id : String
  snippet : String
  historyId : String
  valid : Bool
  sort_epoch : Nat
  timestamp : Nat
  «from» : String
  subject : String
  analysis : SentAnalysis
  deriving Repr, DecidableEq

/-- Field computation of `analyzeSentThread` for a sorted `m :: ms`. -/
def classifySentMsgs (env : GmailEnv) (t : RawThread) (m : RawMessage)
    (ms : List RawMessage) : SentClassified :=
  let messages := m :: ms
  let latestMsg := messages.getLast (List.cons_ne_nil m ms)
  let latestTs := latestMsg.internalDate
  let headers := latestMsg.payload.bind (fun p => p.headers)
  let headers :=
    if headers.isNone then
      match env.getMessageHeaders latestMsg.id with
      | .ok hs => hs
      | .error _ => headers
    else headers
  let toRaw := (headers.bind (fun hs => findHeader hs "To")).getD "Unknown Recipient"
  let toEmail := (extractAngle toRaw).getD (trimStr (stripQuotes toRaw))
  let toName :=
    let n := trimStr (stripQuotes (takeBeforeAngle toRaw))
    if n = "" then toEmail else n
  let subjectRaw := (headers.bind (fun hs => findHeader hs "Subject")).getD "(No Subject)"
  let summary := latestMsg.snippet
  { id := t.id
    snippet := summary
    historyId := latestMsg.historyId
    valid := true
    sort_epoch := latestTs
    timestamp := latestTs
    «from» := toName
    subject := subjectRaw
    analysis := { is_inbox := true, is_sent := true, is_replied := false } }

/-- part_002 `analyzeSentThread`: same in-place sort, recipient-oriented
fields. -/
def analyzeSentThread (env : GmailEnv) (t : RawThread) :
    Option SentClassified × RawThread :=
  match sortMsgs t.messages with
  | [] => (none, t)
  | m :: ms => (some (classifySentMsgs env t m ms), { t with messages := m :: ms })

/-! ## part_001 `analyzeThread` (all-mail revision, lines 137-289) -/

structure AllAnalysis where
  has_resume : Bool
  resume_filenames : List String
  is_rtr : Bool
  is_sent : Bool
  is_inbox : Bool
  is_replied : Bool
  deriving Repr, DecidableEq

structure AllClassified where
  id : String
  timestamp : String
  subject : String
  original_subject : String
  «from» : String
  summary : String
  updated_at : String
  sort_epoch : Nat
  analysis : AllAnalysis
  ai_data : Option RtrFields
  deriving Repr, DecidableEq

/-- JS `Set` insertion order: append each element not already present.
Models both `new Set(list)` spreads and the count pass's `Set.add`. -/
def addUnique (acc : List String) (xs : List String) : List String :=
  xs.foldl (fun a x => if x ∈ a then a else a ++ [x]) acc

/-- The fixed attachment keyword set of part_001 (lines 216, 334, 650, 771). -/
def resumeKeywords : List String :=
  ["resume", "cv", "profile", "candidate", "submission"]

/-- `keywords.some(k => name.toLowerCase().includes(k))`. -/
def interestingName (name : String) : Bool :=
  resumeKeywords.any (fun k => strIncludes (lowerStr name) k)

/-- Per-message resume scan (part_001 lines 209-223): the non-empty
filenames of `payload.parts` whose lowercase form contains a keyword. -/
def validResumes (m : RawMessage) : List String :=
  match m.payload.bind (fun p => p.parts) with
  | none => []
  | some parts =>
    let files := (parts.filter (fun part => part.filename ≠ "")).map (fun part => part.filename)
    files.filter interestingName

/-- Per-message RTR subject test (part_001 lines 225-227). -/
def subjectRtr (m : RawMessage) : Bool :=
  let sub := lowerStr ((((m.payload.bind (fun p => p.headers)).bind
    (fun hs => findHeader hs "Subject"))).getD "")
  strIncludes sub "rtr" || strIncludes sub "right to represent"

/-- part_001 `getEmailBody` (lines 292-313); base64 decoding abstracted by
the stored decoded text, absent payload treated as empty. -/
def getEmailBody (m : RawMessage) : String :=
  match m.payload with
  | none => ""
  | some p =>
    match p.body with
    | some data => data
    | none =>
      match p.parts with
      | none => ""
      | some parts =>
        match parts.find? (fun pt => pt.mimeType = "text/plain") with
        | some tp =>
          match tp.body with
          | some d => d
          | none => parts.foldl (fun acc pt =>
              match pt.body with
              | some d => acc ++ d ++ "\n"
              | none => acc) ""
        | none => parts.foldl (fun acc pt =>
            match pt.body with
            | some d => acc ++ d ++ "\n"
            | none => acc) ""

/-- Subject-to-role heuristic (part_001 lines 236-248): strip one leading
reply/forward tag, then keep the text before the first `|`, dash or colon
when non-empty and under 50 characters. -/
def roleFromSubject (subjectRaw : String) : String :=
  let ls := lowerStr subjectRaw
  let clean :=
    if ls.data.take 4 = "fwd:".data then
      trimStr (String.mk ((subjectRaw.data.drop 4).dropWhile Char.isWhitespace))
    else if ls.data.take 3 = "re:".data then
      trimStr (String.mk ((subjectRaw.data.drop 3).dropWhile Char.isWhitespace))
    else if ls.data.take 3 = "aw:".data then
      trimStr (String.mk ((subjectRaw.data.drop 3).dropWhile Char.isWhitespace))
    else if ls.data.take 3 = "fw:".data then
      trimStr (String.mk ((subjectRaw.data.drop 3).dropWhile Char.isWhitespace))
    else trimStr subjectRaw
  let seg := String.mk (clean.data.takeWhile (fun c => c ≠ '|' ∧ c ≠ '-' ∧ c ≠ ':'))
  if seg ≠ "" ∧ seg.length < 50 then trimStr seg else clean

/-- `messages.slice(-2)`. -/
def lastTwo (l : List RawMessage) : List RawMessage :=
  l.drop (l.length - 2)

/-- Field computation of part_001 `analyzeThread` (lines 142-267): primary
message is the first (in given order) message without the sent label, falling
back to `messages[0]`; flags are aggregated over the whole thread. -/
def classifyAllMsgs (env : GmailEnv) (rtrLabelIds : List String) (t : RawThread)
    (m0 : RawMessage) : AllClassified :=
    let messages := t.messages
    let primaryMsg := (messages.find? (fun m => !(hasLabel m "SENT"))).getD m0
    let headers0 := (primaryMsg.payload.bind (fun p => p.headers)).getD []
    let headers :=
      if headers0.isEmpty then
        match env.getMessageHeaders primaryMsg.id with
        | .ok o => o.getD []
        | .error _ => headers0
      else headers0
    let subjectRaw := (findHeader headers "Subject").getD "(No Subject)"
    let fromRaw := (findHeader headers "From").getD "Unknown"
    let fromEmail := (extractAngle fromRaw).getD (trimStr (stripQuotes fromRaw))
    let fromName := fromEmail
    let timestamp := isoFromMillis primaryMsg.internalDate
    let summary := primaryMsg.snippet
    let hasSentMsg := messages.any (fun m => hasLabel m "SENT")
    let hasReceivedMsg := messages.any (fun m => !(hasLabel m "SENT"))
    let replied := hasSentMsg && hasReceivedMsg
    let hasResume := messages.any (fun m => !(validResumes m).isEmpty)
    let resumeFiles := messages.foldl (fun acc m =>
      let v := validResumes m
      if v.isEmpty then acc else acc ++ v) []
    let isRtr := messages.any (fun m =>
      subjectRtr m || m.labelIds.any (fun id => rtrLabelIds.contains id))
    let isSent := messages.any (fun m => hasLabel m "SENT")
    let isInbox := messages.any (fun m => hasLabel m "INBOX")
    let roleDisplay := if isRtr then "RTR" else roleFromSubject subjectRaw
    { id := t.id
      timestamp := timestamp
      subject := roleDisplay
      original_subject := subjectRaw
      «from» := fromName
      summary := summary
      updated_at := timestamp
      sort_epoch := primaryMsg.internalDate
      analysis :=
        { has_resume := hasResume
          resume_filenames := addUnique [] resumeFiles
          is_rtr := isRtr
          is_sent := isSent
          is_inbox := isInbox
          is_replied := replied }
      ai_data := none }

/-- part_001 `analyzeThread`: the base classification above, plus the
best-effort RTR enrichment call (lines 269-288), whose failure is caught. -/
def analyzeThreadAll (env : GmailEnv) (rtrLabelIds : List String) (t : RawThread) :
    Option AllClassified :=
  match t.messages with
  | [] => none
  | m0 :: _ =>
    let base := classifyAllMsgs env rtrLabelIds t m0
    if base.analysis.is_rtr then
      let combinedBody := (lastTwo t.messages).foldl
        (fun acc m => acc ++ getEmailBody m ++ "\n\n---\n\n") ""
      match env.extractRTR combinedBody base.original_subject with
      | .ok ai => some { base with ai_data := some ai }
      | .error _ => some base
    else some base

/-! ## Exact counter (§4.2): workspace.js lines 74-103, part_002 lines 45-74 -/

/-- One run of the count pass's do/while loop.  Each call performs one page
fetch; `pageCount` is incremented after the fetch and the loop breaks once
it exceeds 50 or the provider returns no cursor.  The accumulated unique
thread-id list models the JS `Set`. -/
def countGo (env : GmailEnv) (query : String) (tok : Option String)
    (pageCount : Nat) (acc : List String) : Except Unit (Nat × List String) :=
  match env.countPage query tok with
  | .error e => .error e
  | .ok page =>
    let acc2 := addUnique acc page.threadIds
    if _h : pageCount + 1 > 50 then .ok (pageCount + 1, acc2)
    else
      match page.nextPageToken with
      | none => .ok (pageCount + 1, acc2)
      | some t => countGo env query (some t) (pageCount + 1) acc2
termination_by 51 - pageCount
decreasing_by omega

/-- The whole count pass: unique-thread total, or the thrown error. -/
def exactThreadCount (env : GmailEnv) (query : String) : Except Unit Nat :=
  (countGo env query none 0 []).map (fun r => r.2.length)

/-- `exactTotal` as `getUserActivity` computes it: the pass runs only when no
page token was supplied, and a failed pass degrades to 0. -/
def exactCountPass (env : GmailEnv) (query : String) (pageToken : Option String) : Nat :=
  match pageToken with
  | some _ => 0
  | none =>
    match exactThreadCount env query with
    | .ok n => n
    | .error _ => 0

/-! ## Thread grouper + page pipeline (§4.3, §4.6): workspace.js lines 105-199 -/

/-- One step of the `threadMap` construction: append the stub to its thread's
bucket, creating the bucket at the end on first encounter (JS `Map` preserves
insertion order). -/
def pushStub (acc : List (String × List MessageStub)) (m : MessageStub) :
    List (String × List MessageStub) :=
  match acc with
  | [] => [(m.threadId, [m])]
  | (k, v) :: rest =>
    if k = m.threadId then (k, v ++ [m]) :: rest else (k, v) :: pushStub rest m

/-- `threadMap` / `threadsToProcess`: the page's stubs grouped by thread id in
encounter order. -/
def groupByThread (msgs : List MessageStub) : List (String × List MessageStub) :=
  msgs.foldl pushStub []

/-- The strict date filter applied to each classified thread
(workspace.js lines 150-170). -/
def dateValid (env : GmailEnv) (startDate endDate : Option String) (epoch : Nat) : Bool :=
  match startDate, endDate with
  | none, none => true
  | _, _ =>
    let emailDateStr := env.localDate epoch
    let v := match startDate with
      | some sd => !(decide (emailDateStr < takeBeforeT sd))
      | none => true
    v && (match endDate with
      | some ed => !(decide (takeBeforeT ed < emailDateStr))
      | none => true)

/-- Per-thread processing (workspace.js lines 136-178): fetch the thread's
detail, classify, date-filter; any per-thread failure is caught and the
thread dropped. -/
def processThreadGroup (env : GmailEnv) (startDate endDate : Option String)
    (g : String × List MessageStub) : Option InboxClassified :=
  match env.getThread g.1 with
  | .error _ => none
  | .ok td =>
    match (analyzeThread env td).1 with
    | none => none
    | some data =>
      if dateValid env startDate endDate data.sort_epoch then some data else none

/-- Descending order on classified threads:
`detailedEmails.sort((a, b) => b.sort_epoch - a.sort_epoch)`. -/
def itemGe (a b : InboxClassified) : Prop :=
  b.sort_epoch ≤ a.sort_epoch

instance : DecidableRel itemGe :=
  fun a b => inferInstanceAs (Decidable (b.sort_epoch ≤ a.sort_epoch))

instance : IsTotal InboxClassified itemGe :=
  ⟨fun a b => (Nat.le_total b.sort_epoch a.sort_epoch)⟩

instance : IsTrans InboxClassified itemGe :=
  ⟨fun _ _ _ h h' => Nat.le_trans h' h⟩

/-- The page's classified, filtered, latest-first items.  Batches of 10 with
`Promise.all` only bound concurrency; results are modelled appended in list
order, and the final sort makes the order canonical. -/
def pageItems (env : GmailEnv) (startDate endDate : Option String)
    (stubs : List MessageStub) : List InboxClassified :=
  List.insertionSort itemGe
    ((groupByThread stubs).filterMap (processThreadGroup env startDate endDate))

/-- The out-of-band `detailedEmails.meta` object, modelled as a record
field of the page result. -/
structure Meta where
  fetched : Nat
  nextToken : Option String
  total : Nat
  query_debug : String
  deriving Repr, DecidableEq

structure PageResult where
  items : List InboxClassified
  meta : Meta
  deriving Repr, DecidableEq

/-- workspace.js `getUserActivity` (lines 27-200): query construction, exact
count pass on the first page, single page fetch (failure propagates),
grouping, per-thread processing, sort, fail-safe total. -/
def getUserActivity (env : GmailEnv) (userEmail : String)
    (startDate endDate : Option String) (pageToken : Option String) :
    Except Unit PageResult :=
  let query := buildInboxQuery startDate endDate
  let exactTotal := exactCountPass env query pageToken
  match env.listPage query pageToken with
  | .error e => .error e
  | .ok page =>
    let allMessages := page.messages
    let nextToken := page.nextPageToken
    let totalEstimate := page.resultSizeEstimate
    let detailedEmails := pageItems env startDate endDate allMessages
    let finalTotal := max exactTotal (max detailedEmails.length totalEstimate)
    .ok { items := detailedEmails
          meta := { fetched := allMessages.length
                    nextToken := nextToken
                    total := finalTotal
                    query_debug := query } }

/-! ## Concrete sample data used by witnesses and counterexamples -/

/-- An environment whose auxiliary calls all fail: exercises the catch paths
and shows the classifiers never depend on them when headers are present. -/
def sampleEnv : GmailEnv where
  listPage := fun _ _ => .error ()
  countPage := fun _ _ => .error ()
  getThread := fun _ => .error ()
  getMessageHeaders := fun _ => .error ()
  extractRTR := fun _ _ => .error ()
  localDate := fun _ => "1970-01-01"

def mkMsg (id : String) (ts : Nat) (labels : List String) (hdrs : List Header)
    (parts : List Part) : RawMessage :=
  { id := id, historyId := "h" ++ id, internalDate := ts, labelIds := labels,
    payload := some { headers := some hdrs, parts := some parts, body := none },
    snippet := "snippet-" ++ id }

/-- Inbound message at t=1000. -/
def msgInb1 : RawMessage :=
  mkMsg "m1" 1000 ["INBOX"] [⟨"From", "Alice <alice@x.com>"⟩, ⟨"Subject", "S1"⟩] []

/-- Sent reply at t=2000. -/
def msgSent2 : RawMessage :=
  mkMsg "m2" 2000 ["SENT"] [⟨"From", "Me <me@inno.com>"⟩, ⟨"Subject", "Re: S1"⟩] []

/-- Thread `[inbound@t1, sent@t2]` with `t2 > t1`. -/
def threadInSent : RawThread := ⟨"T1", [msgInb1, msgSent2]⟩

/-- Thread with the single message `[inbound@t1]`. -/
def threadSingleInb : RawThread := ⟨"T2", [msgInb1]⟩

/-- Thread whose only attachment filename is `NonResume.docx`. -/
def threadNonResume : RawThread :=
  ⟨"T3", [mkMsg "m3" 1000 ["INBOX"] [⟨"From", "A <a@b.c>"⟩, ⟨"Subject", "Hi"⟩]
    [⟨"NonResume.docx", "application/pdf", none⟩]]⟩

/-- Thread carrying `John_Resume.pdf` on two distinct messages. -/
def threadTwoResumes : RawThread :=
  ⟨"T4", [mkMsg "m4" 1000 ["INBOX"] [⟨"From", "A <a@b.c>"⟩]
      [⟨"John_Resume.pdf", "application/pdf", none⟩],
    mkMsg "m5" 2000 ["INBOX"] [⟨"From", "A <a@b.c>"⟩]
      [⟨"John_Resume.pdf", "application/pdf", none⟩]]⟩

/-- The selection the claim (and §4.4 step 1 of the spec, and the code's own
comments `IDENTIFY PRIMARY (First Incoming Message)`) requires: the
timestamp-earliest message without the sent label, falling back to the very
first message when every message is sent-labeled. -/
def specPrimaryMessage (t : RawThread) : Option RawMessage :=
  match (sortMsgs t.messages).find? (fun m => !(hasLabel m "SENT")) with
  | some m => some m
  | none => (sortMsgs t.messages).head?

/-- Sent opener at t=1000 from the mailbox owner. -/
def msgSentEarly : RawMessage :=
  mkMsg "m6" 1000 ["SENT"] [⟨"From", "Me <me@inno.com>"⟩, ⟨"Subject", "Owner opener"⟩] []

/-- Inbound reply at t=2000 from the counterparty. -/
def msgInbLate : RawMessage :=
  mkMsg "m7" 2000 ["INBOX"] [⟨"From", "Alice <alice@x.com>"⟩, ⟨"Subject", "Alice reply"⟩] []

/-- Thread whose first (timestamp-earliest) message is sent-labeled while a
later inbound message exists. -/
def threadSentFirst : RawThread := ⟨"T5", [msgSentEarly, msgInbLate]⟩

/-- Message carrying neither the sent nor the inbox label (e.g. archived). -/
def msgNoLabels : RawMessage :=
  mkMsg "m8" 1000 [] [⟨"From", "B <b@c.d>"⟩, ⟨"Subject", "Archived"⟩] []

def threadNoLabels : RawThread := ⟨"T6", [msgNoLabels]⟩

/-- Provider that reports a further cursor on every count page. -/
def cursorEnv : GmailEnv :=
  { sampleEnv with countPage := fun _ _ => .ok ⟨[], some "next"⟩ }

/-- Provider whose count call returns a single page of three stubs over two
threads. -/
def onePageEnv : GmailEnv :=
  { sampleEnv with countPage := fun _ _ => .ok ⟨["T1", "T1", "T2"], none⟩ }

/-! ## Concrete pipeline provider for the C6/C7/C8 witnesses -/

def pipeEnv : GmailEnv where
  listPage := fun _ _ => .ok ⟨[⟨"s1", "T1"⟩, ⟨"s2", "TBAD"⟩], none, 3⟩
  countPage := fun _ _ => .error ()
  getThread := fun tid =>
    if tid == "TBAD" then .error ()
    else .ok ⟨tid, [mkMsg "g1" 1000 ["INBOX"] [⟨"From", "A <a@b.c>"⟩, ⟨"Subject", "S"⟩] []]⟩
  getMessageHeaders := fun _ => .error ()
  extractRTR := fun _ _ => .error ()
  localDate := fun _ => "1970-01-01"

/-! ## C10 — classification sorts the caller's message array in place -/

theorem sortMsgs_perm (l : List RawMessage) : List.Perm (sortMsgs l) l :=
  List.perm_insertionSort msgLe l

theorem sortMsgs_nil_iff (l : List RawMessage) (hs : sortMsgs l = []) : l = [] := by
  have hperm : List.Perm (sortMsgs l) l := sortMsgs_perm l
  rw [hs] at hperm
  exact hperm.symm.eq_nil

theorem analyzeThread_post_eq (env : GmailEnv) (t : RawThread) :
    (analyzeThread env t).2.messages = sortMsgs t.messages ∧
      (analyzeThread env t).2.id = t.id := by
  unfold analyzeThread
  cases hs : sortMsgs t.messages with
  | nil => exact ⟨sortMsgs_nil_iff t.messages hs, rfl⟩
  | cons m ms => exact ⟨rfl, rfl⟩

theorem analyzeSentThread_post_eq (env : GmailEnv) (t : RawThread) :
    (analyzeSentThread env t).2.messages = sortMsgs t.messages ∧
      (analyzeSentThread env t).2.id = t.id := by
  unfold analyzeSentThread
  cases hs : sortMsgs t.messages with
  | nil => exact ⟨sortMsgs_nil_iff t.messages hs, rfl⟩
  | cons m ms => exact ⟨rfl, rfl⟩

/-- C10: classifying a thread mutates its input: after `analyzeThread` (and
`analyzeSentThread`) the caller's thread holds the same messages, reordered
ascending by internal timestamp, whatever order they were supplied in, and
the thread's only other field (`id`) is unchanged. -/
theorem classify_sorts_input_messages (env : GmailEnv) (t : RawThread) :
    (analyzeThread env t).2.messages = sortMsgs t.messages ∧
    List.Sorted msgLe (analyzeThread env t).2.messages ∧
    List.Perm (analyzeThread env t).2.messages t.messages ∧
    (analyzeThread env t).2.id = t.id ∧
    (analyzeSentThread env t).2.messages = sortMsgs t.messages ∧
    List.Sorted msgLe (analyzeSentThread env t).2.messages ∧
    List.Perm (analyzeSentThread env t).2.messages t.messages ∧
    (analyzeSentThread env t).2.id = t.id := by
  obtain ⟨h1, h2⟩ := analyzeThread_post_eq env t
  obtain ⟨h3, h4⟩ := analyzeSentThread_post_eq env t
  refine ⟨h1, ?_, ?_, h2, h3, ?_, ?_, h4⟩
  · rw [h1]; exact List.sorted_insertionSort msgLe t.messages
  · rw [h1]; exact sortMsgs_perm t.messages
  · rw [h3]; exact List.sorted_insertionSort msgLe t.messages
  · rw [h3]; exact sortMsgs_perm t.messages

/-! ## C1 — reply detection follows Policy B -/

theorem classifyInboxMsgs_replied (env : GmailEnv) (t : RawThread)
    (m : RawMessage) (ms : List RawMessage) :
    (classifyInboxMsgs env t m ms).analysis.is_replied =
      (decide ((m :: ms).length > 1) && !(hasLabel m "SENT") &&
        hasLabel ((m :: ms).getLast (List.cons_ne_nil m ms)) "SENT") := rfl

/-- C1: for every classified thread, `is_replied` is true iff the thread has
more than one message, its timestamp-earliest message does not carry the
sent label, and its timestamp-latest message does. -/
theorem analyzeThread_replied_policyB (env : GmailEnv) (t : RawThread)
    (c : InboxClassified) (t' : RawThread) (p lm : RawMessage)
    (h : analyzeThread env t = (some c, t'))
    (hp : (sortMsgs t.messages).head? = some p)
    (hl : (sortMsgs t.messages).getLast? = some lm) :
    c.analysis.is_replied = true ↔
      1 < t.messages.length ∧ hasLabel p "SENT" = false ∧ hasLabel lm "SENT" = true := by
  unfold analyzeThread at h
  cases hs : sortMsgs t.messages with
  | nil => rw [hs] at h; exact absurd (congrArg Prod.fst h) (by simp)
  | cons m ms =>
    rw [hs] at h hp hl
    have hc : c = classifyInboxMsgs env t m ms := by
      have := congrArg Prod.fst h
      simpa using this.symm
    have hpm : p = m := by simpa using hp.symm
    have hlen : (m :: ms).length = t.messages.length := by
      rw [← hs]; exact (sortMsgs_perm t.messages).length_eq
    have hlm : lm = (m :: ms).getLast (List.cons_ne_nil m ms) := by
      rw [List.getLast?_eq_getLast (m :: ms) (List.cons_ne_nil m ms)] at hl
      simpa using hl.symm
    rw [hc, classifyInboxMsgs_replied, hpm, hlm, ← hlen]
    constructor
    · intro hr
      simp only [Bool.and_eq_true, decide_eq_true_eq, Bool.not_eq_true'] at hr
      exact ⟨hr.1.1, hr.1.2, hr.2⟩
    · intro ⟨h1, h2, h3⟩
      simp only [Bool.and_eq_true, decide_eq_true_eq, Bool.not_eq_true']
      exact ⟨⟨h1, h2⟩, h3⟩

/-- C1 witness: on `[inbound@1000, sent@2000]` the theorem applies and yields
`is_replied = true`; on the single-message thread it yields `false`. -/
theorem analyzeThread_replied_policyB_witness :
    (∃ c t', analyzeThread sampleEnv threadInSent = (some c, t') ∧
      c.analysis.is_replied = true) ∧
    (∃ c t', analyzeThread sampleEnv threadSingleInb = (some c, t') ∧
      c.analysis.is_replied = false) := by
  constructor
  · obtain ⟨c, t', h⟩ : ∃ c t', analyzeThread sampleEnv threadInSent = (some c, t') :=
      ⟨_, _, rfl⟩
    refine ⟨c, t', h, ?_⟩
    exact (analyzeThread_replied_policyB sampleEnv threadInSent c t' msgInb1 msgSent2
      h (by decide) (by decide)).mpr ⟨by decide, by decide, by decide⟩
  · obtain ⟨c, t', h⟩ : ∃ c t', analyzeThread sampleEnv threadSingleInb = (some c, t') :=
      ⟨_, _, rfl⟩
    refine ⟨c, t', h, ?_⟩
    have := analyzeThread_replied_policyB sampleEnv threadSingleInb c t' msgInb1 msgInb1
      h (by decide) (by decide)
    by_contra hne
    have htrue : c.analysis.is_replied = true := by
      cases hrb : c.analysis.is_replied with
      | false => exact absurd hrb hne
      | true => rfl
    exact absurd (this.mp htrue).1 (by decide)

/-! ## Shared lemmas about `addUnique` and the resume scan -/

theorem addUnique_cons (acc : List String) (x : String) (xs : List String) :
    addUnique acc (x :: xs) = addUnique (if x ∈ acc then acc else acc ++ [x]) xs := rfl

theorem addUnique_mem : ∀ (xs acc : List String) (f : String),
    f ∈ addUnique acc xs ↔ f ∈ acc ∨ f ∈ xs := by
  intro xs
  induction xs with
  | nil => intro acc f; simp [addUnique]
  | cons x xs ih =>
    intro acc f
    rw [addUnique_cons, ih]
    by_cases hx : x ∈ acc
    · simp only [if_pos hx, List.mem_cons]
      constructor
      · rintro (h | h)
        · exact Or.inl h
        · exact Or.inr (Or.inr h)
      · rintro (h | h | h)
        · exact Or.inl h
        · exact Or.inl (h ▸ hx)
        · exact Or.inr h
    · simp only [if_neg hx, List.mem_append, List.mem_singleton, List.mem_cons]
      tauto

theorem addUnique_nodup : ∀ (xs acc : List String), acc.Nodup → (addUnique acc xs).Nodup := by
  intro xs
  induction xs with
  | nil => intro acc h; exact h
  | cons x xs ih =>
    intro acc h
    rw [addUnique_cons]
    by_cases hx : x ∈ acc
    · rw [if_pos hx]; exact ih acc h
    · rw [if_neg hx]
      refine ih _ (List.nodup_append.2 ⟨h, List.nodup_singleton x, ?_⟩)
      intro a ha hb
      rw [List.mem_singleton] at hb
      exact hx (hb ▸ ha)

theorem mem_validResumes (m : RawMessage) (f : String) :
    f ∈ validResumes m ↔
      ∃ pl pts pt, m.payload = some pl ∧ pl.parts = some pts ∧ pt ∈ pts ∧
        pt.filename = f ∧ f ≠ "" ∧ interestingName f = true := by
  unfold validResumes
  cases hp : m.payload.bind (fun p => p.parts) with
  | none =>
    simp only [List.not_mem_nil, false_iff]
    rintro ⟨pl, pts, pt, hpl, hpts, -, -, -, -⟩
    rw [hpl] at hp
    simp [hpts] at hp
  | some parts =>
    obtain ⟨pl, hpl, hpts⟩ := Option.bind_eq_some.mp hp
    simp only [List.mem_filter, List.mem_map, List.mem_filter]
    constructor
    · rintro ⟨⟨pt, ⟨hmem, hne⟩, hfn⟩, hint⟩
      exact ⟨pl, parts, pt, hpl, hpts, hmem, hfn, by simpa [← hfn] using hne, hint⟩
    · rintro ⟨pl', pts', pt, hpl', hpts', hmem, hfn, hne, hint⟩
      rw [hpl] at hpl'
      cases hpl'
      rw [hpts] at hpts'
      cases hpts'
      exact ⟨⟨pt, ⟨hmem, by simpa [hfn] using hne⟩, hfn⟩, hint⟩

theorem resumeFoldl_mem : ∀ (l : List RawMessage) (acc : List String) (f : String),
    f ∈ l.foldl (fun acc m =>
      let v := validResumes m
      if v.isEmpty then acc else acc ++ v) acc ↔
    f ∈ acc ∨ ∃ m ∈ l, f ∈ validResumes m := by
  intro l
  induction l with
  | nil => intro acc f; simp
  | cons m l ih =>
    intro acc f
    rw [List.foldl_cons, ih]
    have hstep : f ∈ (if (validResumes m).isEmpty then acc else acc ++ validResumes m) ↔
        f ∈ acc ∨ f ∈ validResumes m := by
      by_cases he : (validResumes m).isEmpty
      · rw [if_pos he]
        have : validResumes m = [] := List.isEmpty_iff.mp he
        simp [this]
      · rw [if_neg he]; simp
    rw [hstep]
    simp only [List.mem_cons]
    constructor
    · rintro (⟨h | h⟩ | ⟨mm, hm, hf⟩)
      · exact Or.inl h
      · exact Or.inr ⟨m, Or.inl rfl, h⟩
      · exact Or.inr ⟨mm, Or.inr hm, hf⟩
    · rintro (h | ⟨mm, (rfl | hm), hf⟩)
      · exact Or.inl (Or.inl h)
      · exact Or.inl (Or.inr hf)
      · exact Or.inr ⟨mm, hm, hf⟩

/-- The enrichment wrapper never changes the analysis record. -/
theorem analyzeThreadAll_analysis (env : GmailEnv) (rtr : List String)
    (t : RawThread) (c : AllClassified) (h : analyzeThreadAll env rtr t = some c) :
    ∃ m0 rest, t.messages = m0 :: rest ∧
      c.analysis = (classifyAllMsgs env rtr t m0).analysis := by
  cases t with
  | mk tid tmsgs =>
    cases tmsgs with
    | nil => exact absurd h (by simp [analyzeThreadAll])
    | cons m0 rest =>
      refine ⟨m0, rest, rfl, ?_⟩
      simp only [analyzeThreadAll] at h
      by_cases hrtr : (classifyAllMsgs env rtr ⟨tid, m0 :: rest⟩ m0).analysis.is_rtr = true
      · rw [if_pos hrtr] at h
        cases hai : env.extractRTR ((lastTwo (m0 :: rest)).foldl
            (fun acc m => acc ++ getEmailBody m ++ "\n\n---\n\n") "")
            (classifyAllMsgs env rtr ⟨tid, m0 :: rest⟩ m0).original_subject with
        | ok ai => rw [hai] at h; cases h; rfl
        | error e => rw [hai] at h; cases h; rfl
      · rw [if_neg hrtr] at h
        cases h; rfl

/-! ## C2 — attachment/submission detection (corrected) -/

/-- C2 counterexample: the claim asserts `hasAttachmentOfInterest = false` for
a thread whose only attachment filename is `"NonResume.docx"`, but the
lowercase form `"nonresume.docx"` contains the keyword `"resume"`, so the
classifier flags it `true`. -/
theorem resume_nonresume_counterexample :
    (analyzeThreadAll sampleEnv [] threadNonResume).map
        (fun c => c.analysis.has_resume) = some true ∧
      (analyzeThreadAll sampleEnv [] threadNonResume).map
        (fun c => c.analysis.has_resume) ≠ some false ∧
      interestingName "NonResume.docx" = true := by
  have h1 : (analyzeThreadAll sampleEnv [] threadNonResume).map
      (fun c => c.analysis.has_resume) = some true := rfl
  refine ⟨h1, ?_, rfl⟩
  rw [h1]
  simp

/-- C2 (amended): a filename is of interest exactly when its lowercase form
contains one of the fixed keywords — hence `"NonResume.docx"` yields
`has_resume = true` — and the accumulated filename set is deduplicated across
the whole thread: membership iff some message carries the filename as a valid
attachment, with no duplicates. -/
theorem resume_detection_amended (env : GmailEnv) (rtr : List String)
    (t : RawThread) (c : AllClassified) (h : analyzeThreadAll env rtr t = some c) :
    (c.analysis.has_resume = true ↔ ∃ m ∈ t.messages, validResumes m ≠ []) ∧
    (∀ (m : RawMessage) (f : String), f ∈ validResumes m ↔
      ∃ pl pts pt, m.payload = some pl ∧ pl.parts = some pts ∧ pt ∈ pts ∧
        pt.filename = f ∧ f ≠ "" ∧ interestingName f = true) ∧
    c.analysis.resume_filenames.Nodup ∧
    (∀ f, f ∈ c.analysis.resume_filenames ↔ ∃ m ∈ t.messages, f ∈ validResumes m) := by
  obtain ⟨m0, rest, hm, hcan⟩ := analyzeThreadAll_analysis env rtr t c h
  have hres : c.analysis.has_resume =
      t.messages.any (fun m => !(validResumes m).isEmpty) := by rw [hcan]; rfl
  have hfiles : c.analysis.resume_filenames =
      addUnique [] (t.messages.foldl (fun acc m =>
        let v := validResumes m
        if v.isEmpty then acc else acc ++ v) []) := by rw [hcan]; rfl
  refine ⟨?_, fun m f => mem_validResumes m f, ?_, ?_⟩
  · rw [hres, List.any_eq_true]
    constructor
    · rintro ⟨m, hmem, hb⟩
      refine ⟨m, hmem, ?_⟩
      intro hnil
      rw [hnil] at hb
      simp at hb
    · rintro ⟨m, hmem, hne⟩
      refine ⟨m, hmem, ?_⟩
      simpa [List.isEmpty_iff] using hne
  · rw [hfiles]
    exact addUnique_nodup _ [] List.nodup_nil
  · intro f
    rw [hfiles, addUnique_mem, resumeFoldl_mem]
    simp

/-- C2 witness: on a thread with `John_Resume.pdf` attached to two messages,
the amended theorem yields `has_resume = true` and the filename appears
exactly once in the deduplicated set. -/
theorem resume_detection_amended_witness :
    ∃ c, analyzeThreadAll sampleEnv [] threadTwoResumes = some c ∧
      c.analysis.has_resume = true ∧
      c.analysis.resume_filenames.count "John_Resume.pdf" = 1 := by
  obtain ⟨c, hc⟩ : ∃ c, analyzeThreadAll sampleEnv [] threadTwoResumes = some c :=
    ⟨_, rfl⟩
  have hthm := resume_detection_amended sampleEnv [] threadTwoResumes c hc
  refine ⟨c, hc, ?_, ?_⟩
  · exact hthm.1.mpr ⟨mkMsg "m4" 1000 ["INBOX"] [⟨"From", "A <a@b.c>"⟩]
      [⟨"John_Resume.pdf", "application/pdf", none⟩], by decide, by decide⟩
  · have hmem : "John_Resume.pdf" ∈ c.analysis.resume_filenames := by
      refine (hthm.2.2.2 "John_Resume.pdf").mpr ?_
      exact ⟨mkMsg "m4" 1000 ["INBOX"] [⟨"From", "A <a@b.c>"⟩]
        [⟨"John_Resume.pdf", "application/pdf", none⟩], by decide, by decide⟩
    have hnodup := hthm.2.2.1
    have hle := List.nodup_iff_count_le_one.mp hnodup "John_Resume.pdf"
    have hge := List.count_pos_iff.mpr hmem
    omega

/-! ## C3 — primary (first-contact) message selection (code bug) -/

/-- C3: the current inbox classifier takes the counterparty identity and
subject from `messages[0]` after the sort, regardless of labels — on
`threadSentFirst` it reports the owner's own "Me" / "Owner opener" — whereas
the claimed (and comment-documented) selection `specPrimaryMessage` picks the
inbound message from "Alice".  The earlier all-mail classifier implements the
claimed selection and reports `alice@x.com`. -/
theorem primary_selection_divergence :
    ((analyzeThread sampleEnv threadSentFirst).1.map (fun c => c.«from»)) = some "Me" ∧
    ((analyzeThread sampleEnv threadSentFirst).1.map (fun c => c.subject)) =
      some "Owner opener" ∧
    specPrimaryMessage threadSentFirst = some msgInbLate ∧
    ((msgInbLate.payload.bind (fun p => p.headers)).bind
      (fun hs => findHeader hs "From")) = some "Alice <alice@x.com>" ∧
    (analyzeThreadAll sampleEnv [] threadSentFirst).map (fun c => c.«from») =
      some "alice@x.com" ∧
    ("Me" : String) ≠ "alice@x.com" := by
  refine ⟨rfl, rfl, rfl, rfl, rfl, by decide⟩

/-! ## C4 — sent/inbox flags (corrected) -/

/-- C4 counterexample: on a thread whose single message carries no labels at
all, the inbox classifier reports `is_inbox = true` although no message
carries the inbox label, refuting "isInbox is true iff some message in the
thread carries the inbox label" for `analyzeThread`. -/
theorem inbox_flag_counterexample :
    ((analyzeThread sampleEnv threadNoLabels).1.map (fun c => c.analysis.is_inbox)) =
      some true ∧
    threadNoLabels.messages.any (fun m => hasLabel m "INBOX") = false := by
  exact ⟨rfl, rfl⟩

/-- `is_sent` / `is_inbox` of the all-mail base classification. -/
theorem classifyAllMsgs_flags (env : GmailEnv) (rtr : List String)
    (t : RawThread) (m0 : RawMessage) :
    (classifyAllMsgs env rtr t m0).analysis.is_sent =
        t.messages.any (fun m => hasLabel m "SENT") ∧
      (classifyAllMsgs env rtr t m0).analysis.is_inbox =
        t.messages.any (fun m => hasLabel m "INBOX") :=
  ⟨rfl, rfl⟩

/-- C4 (amended): in the all-mail classifier, `is_sent` is true iff some
message carries the sent label and `is_inbox` is true iff some message
carries the inbox label; the inbox-scope classifier instead computes
`is_inbox` as "some message does not carry the sent label" and emits no
`is_sent` flag at all. -/
theorem sent_inbox_flags_amended :
    (∀ (env : GmailEnv) (rtr : List String) (t : RawThread) (c : AllClassified),
      analyzeThreadAll env rtr t = some c →
        (c.analysis.is_sent = true ↔ ∃ m ∈ t.messages, hasLabel m "SENT" = true) ∧
        (c.analysis.is_inbox = true ↔ ∃ m ∈ t.messages, hasLabel m "INBOX" = true)) ∧
    (∀ (env : GmailEnv) (t : RawThread) (c : InboxClassified) (t' : RawThread),
      analyzeThread env t = (some c, t') →
        (c.analysis.is_inbox = true ↔ ∃ m ∈ t.messages, hasLabel m "SENT" = false)) := by
  constructor
  · intro env rtr t c h
    obtain ⟨m0, rest, hm, hcan⟩ := analyzeThreadAll_analysis env rtr t c h
    obtain ⟨hs, hi⟩ := classifyAllMsgs_flags env rtr t m0
    constructor
    · rw [hcan, hs, List.any_eq_true]
    · rw [hcan, hi, List.any_eq_true]
  · intro env t c t' h
    unfold analyzeThread at h
    cases hs : sortMsgs t.messages with
    | nil => rw [hs] at h; exact absurd (congrArg Prod.fst h) (by simp)
    | cons m ms =>
      rw [hs] at h
      have hc : c = classifyInboxMsgs env t m ms := by
        have := congrArg Prod.fst h
        simpa using this.symm
      have hflag : c.analysis.is_inbox =
          (m :: ms).any (fun mm => !(hasLabel mm "SENT")) := by rw [hc]; rfl
      rw [hflag, List.any_eq_true]
      have hperm : List.Perm (m :: ms) t.messages := by
        rw [← hs]; exact sortMsgs_perm t.messages
      constructor
      · rintro ⟨mm, hmem, hb⟩
        exact ⟨mm, hperm.mem_iff.mp hmem, by simpa using hb⟩
      · rintro ⟨mm, hmem, hb⟩
        exact ⟨mm, hperm.mem_iff.mpr hmem, by simpa using hb⟩

/-- C4 witness: a thread with one sent and one inbox message satisfies both
directions of the amended flag characterisations. -/
theorem sent_inbox_flags_amended_witness :
    (∃ c, analyzeThreadAll sampleEnv [] threadInSent = some c ∧
      c.analysis.is_sent = true ∧ c.analysis.is_inbox = true) ∧
    (∃ c t', analyzeThread sampleEnv threadNoLabels = (some c, t') ∧
      c.analysis.is_inbox = true) := by
  constructor
  · obtain ⟨c, hc⟩ : ∃ c, analyzeThreadAll sampleEnv [] threadInSent = some c := ⟨_, rfl⟩
    have hthm := (sent_inbox_flags_amended.1 sampleEnv [] threadInSent c hc)
    exact ⟨c, hc, hthm.1.mpr ⟨msgSent2, by decide, by decide⟩,
      hthm.2.mpr ⟨msgInb1, by decide, by decide⟩⟩
  · obtain ⟨c, t', hc⟩ : ∃ c t', analyzeThread sampleEnv threadNoLabels = (some c, t') :=
      ⟨_, _, rfl⟩
    exact ⟨c, t', hc, (sent_inbox_flags_amended.2 sampleEnv threadNoLabels c t' hc).mpr
      ⟨msgNoLabels, by decide, by decide⟩⟩

/-! ## C5 — trash/spam/drafts exclusion clauses (corrected) -/

theorem isPrefixOf_append (p : List Char) :
    ∀ (l l' : List Char), p.isPrefixOf l = true → p.isPrefixOf (l ++ l') = true := by
  induction p with
  | nil =>
    intro l l' _
    cases l with
    | nil => cases l' <;> rfl
    | cons b l => rfl
  | cons a p ih =>
    intro l l' h
    cases l with
    | nil => simp [List.isPrefixOf] at h
    | cons b l =>
      simp only [List.cons_append, List.isPrefixOf, Bool.and_eq_true] at h ⊢
      exact ⟨h.1, ih l l' h.2⟩

theorem hasSubstr_append (needle : List Char) :
    ∀ (l l' : List Char), hasSubstr needle l = true → hasSubstr needle (l ++ l') = true := by
  intro l
  induction l with
  | nil =>
    intro l' h
    simp only [hasSubstr, List.isEmpty_iff] at h
    subst h
    cases l' with
    | nil => rfl
    | cons c cs => simp [hasSubstr, List.isPrefixOf]
  | cons c cs ih =>
    intro l' h
    simp only [hasSubstr, Bool.or_eq_true] at h ⊢
    rcases h with h | h
    · exact Or.inl (isPrefixOf_append needle (c :: cs) l' h)
    · exact Or.inr (ih l' h)

theorem strIncludes_append (s t sub : String) (h : strIncludes s sub = true) :
    strIncludes (s ++ t) sub = true := by
  unfold strIncludes at h ⊢
  rw [String.data_append]
  exact hasSubstr_append sub.data s.data t.data h

/-- A clause of the base query survives any chain of appended clauses. -/
theorem strIncludes_append_many :
    ∀ (ts : List String) (q0 sub : String), strIncludes q0 sub = true →
      strIncludes (ts.foldl (fun a b => a ++ b) q0) sub = true := by
  intro ts
  induction ts with
  | nil => intro q0 sub h; exact h
  | cons t ts ih =>
    intro q0 sub h
    exact ih (q0 ++ t) sub (strIncludes_append q0 t sub h)

/-- C5 counterexample: the inbox-scope and sent-scope queries (here with no
date range) contain no `-in:drafts` clause, refuting "the provider query
string contains all three exclusion clauses" for every input. -/
theorem drafts_exclusion_counterexample :
    strIncludes (buildInboxQuery none none) "-in:drafts" = false ∧
    strIncludes (buildSentQuery none none) "-in:drafts" = false ∧
    buildInboxQuery none none = "label:INBOX -in:trash -in:spam" := by
  refine ⟨by decide, by decide, rfl⟩

/-- C5 (amended): every query contains the trash and spam exclusion clauses;
the drafts exclusion clause is guaranteed only by the all-mail query builder,
while the inbox-only and sent-only builders omit it. -/
theorem query_exclusions_amended :
    (∀ sd ed : Option String,
      strIncludes (buildInboxQuery sd ed) "-in:trash" = true ∧
      strIncludes (buildInboxQuery sd ed) "-in:spam" = true ∧
      strIncludes (buildSentQuery sd ed) "-in:trash" = true ∧
      strIncludes (buildSentQuery sd ed) "-in:spam" = true) ∧
    (∀ (sd ed : Option String) (q : String), buildAllMailQuery sd ed = .ok q →
      strIncludes q "-in:trash" = true ∧ strIncludes q "-in:spam" = true ∧
      strIncludes q "-in:drafts" = true) := by
  constructor
  · intro sd ed
    have gen : ∀ (base : String) (sub : String), strIncludes base sub = true →
        ∀ x y : Option String,
        strIncludes (match y with
          | some e => (match x with
              | some s0 => base ++ " after:" ++ formatForGmail (adjustDate s0 (-1))
              | none => base) ++ " before:" ++ formatForGmail (adjustDate e 1)
          | none => match x with
              | some s0 => base ++ " after:" ++ formatForGmail (adjustDate s0 (-1))
              | none => base) sub = true := by
      intro base sub h x y
      cases y with
      | none =>
        cases x with
        | none => exact h
        | some s0 =>
          exact strIncludes_append_many [" after:", formatForGmail (adjustDate s0 (-1))] base sub h
      | some e =>
        cases x with
        | none =>
          exact strIncludes_append_many [" before:", formatForGmail (adjustDate e 1)] base sub h
        | some s0 =>
          exact strIncludes_append_many [" after:", formatForGmail (adjustDate s0 (-1)), " before:", formatForGmail (adjustDate e 1)] base sub h
    exact ⟨gen "label:INBOX -in:trash -in:spam" "-in:trash" (by decide) sd ed,
      gen "label:INBOX -in:trash -in:spam" "-in:spam" (by decide) sd ed,
      gen "label:SENT -in:trash -in:spam" "-in:trash" (by decide) sd ed,
      gen "label:SENT -in:trash -in:spam" "-in:spam" (by decide) sd ed⟩
  · intro sd ed q hq
    have hq0 : ∀ sub : String, strIncludes "-in:trash -in:spam -in:drafts" sub = true →
        strIncludes q sub = true := by
      intro sub hsub
      cases sd with
      | none =>
        cases ed with
        | none =>
          simp only [buildAllMailQuery, Except.ok.injEq] at hq
          subst hq
          exact hsub
        | some e =>
          simp only [buildAllMailQuery] at hq
          cases hpe : parseIsoDateStrict e with
          | none => rw [hpe] at hq; exact absurd hq (by simp)
          | some ymd =>
            obtain ⟨y, m, d⟩ := ymd
            rw [hpe] at hq
            simp only [Except.ok.injEq] at hq
            subst hq
            exact strIncludes_append_many [" before:", pad4 (civilFromDays (daysFromCivil y m d + 1)).1, "/", pad2 (civilFromDays (daysFromCivil y m d + 1)).2.1, "/", pad2 (civilFromDays (daysFromCivil y m d + 1)).2.2] _ sub hsub
      | some sdv =>
        cases ed with
        | none =>
          simp only [buildAllMailQuery, Except.ok.injEq] at hq
          subst hq
          exact strIncludes_append_many [" after:", formatForGmail sdv] _ sub hsub
        | some e =>
          simp only [buildAllMailQuery] at hq
          cases hpe : parseIsoDateStrict e with
          | none => rw [hpe] at hq; exact absurd hq (by simp)
          | some ymd =>
            obtain ⟨y, m, d⟩ := ymd
            rw [hpe] at hq
            simp only [Except.ok.injEq] at hq
            subst hq
            exact strIncludes_append_many [" after:", formatForGmail sdv, " before:", pad4 (civilFromDays (daysFromCivil y m d + 1)).1, "/", pad2 (civilFromDays (daysFromCivil y m d + 1)).2.1, "/", pad2 (civilFromDays (daysFromCivil y m d + 1)).2.2] _ sub hsub
    exact ⟨hq0 _ (by decide), hq0 _ (by decide), hq0 _ (by decide)⟩

/-- C5 witness: a concrete all-mail query with both dates carries all three
exclusion clauses. -/
theorem query_exclusions_amended_witness :
    ∃ q, buildAllMailQuery (some "2024-01-30") (some "2024-12-31") = .ok q ∧
      strIncludes q "-in:trash" = true ∧ strIncludes q "-in:spam" = true ∧
      strIncludes q "-in:drafts" = true := by
  obtain ⟨q, hq⟩ : ∃ q, buildAllMailQuery (some "2024-01-30") (some "2024-12-31") = .ok q :=
    ⟨_, rfl⟩
  exact ⟨q, hq, query_exclusions_amended.2 _ _ q hq⟩

/-! ## C6 — no thread id appears twice in a page's items -/

theorem pushStub_keys (m : MessageStub) : ∀ acc : List (String × List MessageStub),
    (pushStub acc m).map Prod.fst =
      if m.threadId ∈ acc.map Prod.fst then acc.map Prod.fst
      else acc.map Prod.fst ++ [m.threadId] := by
  intro acc
  induction acc with
  | nil => simp [pushStub]
  | cons g rest ih =>
    obtain ⟨k, v⟩ := g
    by_cases hk : k = m.threadId
    · subst hk
      simp [pushStub, List.mem_cons]
    · simp only [pushStub, if_neg hk, List.map_cons, ih]
      have hne : ¬ m.threadId = k := fun h => hk h.symm
      by_cases hmem : m.threadId ∈ rest.map Prod.fst
      · simp [List.mem_cons, hne, hmem]
      · simp [List.mem_cons, hne, hmem]

theorem groupBy_keys_nodup : ∀ (msgs : List MessageStub) (acc : List (String × List MessageStub)),
    (acc.map Prod.fst).Nodup → ((msgs.foldl pushStub acc).map Prod.fst).Nodup := by
  intro msgs
  induction msgs with
  | nil => intro acc h; exact h
  | cons m msgs ih =>
    intro acc h
    rw [List.foldl_cons]
    apply ih
    rw [pushStub_keys]
    by_cases hmem : m.threadId ∈ acc.map Prod.fst
    · rw [if_pos hmem]; exact h
    · rw [if_neg hmem]
      refine List.nodup_append.2 ⟨h, List.nodup_singleton _, ?_⟩
      intro a ha hb
      rw [List.mem_singleton] at hb
      exact hmem (hb ▸ ha)

theorem analyzeThread_fst_id (env : GmailEnv) (td : RawThread) (d : InboxClassified)
    (h : (analyzeThread env td).1 = some d) : d.id = td.id := by
  unfold analyzeThread at h
  cases hs : sortMsgs td.messages with
  | nil => rw [hs] at h; simp at h
  | cons m ms =>
    rw [hs] at h
    simp only [Option.some.injEq] at h
    rw [← h]
    rfl

theorem processThreadGroup_id (env : GmailEnv) (sd ed : Option String)
    (g : String × List MessageStub) (c : InboxClassified)
    (hid : ∀ tid td, env.getThread tid = .ok td → td.id = tid)
    (h : processThreadGroup env sd ed g = some c) : c.id = g.1 := by
  unfold processThreadGroup at h
  split at h
  · simp at h
  · split at h
    · simp at h
    · split at h
      · rename_i x1 td hft x2 data han hv
        have hdc : data = c := Option.some.inj h
        subst hdc
        rw [analyzeThread_fst_id env td data han]
        exact hid g.1 td hft
      · simp at h

theorem filterMap_ids_nodup (f : String × List MessageStub → Option InboxClassified)
    (hf : ∀ g c, f g = some c → c.id = g.1) :
    ∀ gs : List (String × List MessageStub), (gs.map Prod.fst).Nodup →
      ((gs.filterMap f).map (fun c => c.id)).Nodup := by
  intro gs
  induction gs with
  | nil => intro _; simp
  | cons g gs ih =>
    intro h
    rw [List.map_cons, List.nodup_cons] at h
    rw [List.filterMap_cons]
    cases hfg : f g with
    | none => exact ih h.2
    | some c =>
      rw [List.map_cons, List.nodup_cons]
      refine ⟨?_, ih h.2⟩
      intro hmem
      rw [List.mem_map] at hmem
      obtain ⟨d, hd, hdc⟩ := hmem
      rw [List.mem_filterMap] at hd
      obtain ⟨g2, hg2, hfg2⟩ := hd
      have h1 : d.id = g2.1 := hf g2 d hfg2
      have h2 : c.id = g.1 := hf g c hfg
      apply h.1
      rw [← h2, ← hdc, h1]
      exact List.mem_map_of_mem Prod.fst hg2

/-- C6: in every successful page result of a provider whose thread-detail
responses carry the requested thread id, no thread id appears twice in
`items`. -/
theorem items_dedup_invariant (env : GmailEnv) (u : String)
    (sd ed pt : Option String) (r : PageResult)
    (hid : ∀ tid td, env.getThread tid = .ok td → td.id = tid)
    (h : getUserActivity env u sd ed pt = .ok r) :
    (r.items.map (fun c => c.id)).Nodup := by
  simp only [getUserActivity] at h
  split at h
  · simp at h
  · rename_i page hlp
    simp only [Except.ok.injEq] at h
    subst h
    show ((pageItems env sd ed page.messages).map (fun c => c.id)).Nodup
    unfold pageItems
    have hperm : List.Perm
        ((List.insertionSort itemGe
          ((groupByThread page.messages).filterMap (processThreadGroup env sd ed))).map
            (fun c => c.id))
        (((groupByThread page.messages).filterMap (processThreadGroup env sd ed)).map
            (fun c => c.id)) :=
      (List.perm_insertionSort itemGe _).map (fun c => c.id)
    refine hperm.nodup_iff.mpr ?_
    exact filterMap_ids_nodup (processThreadGroup env sd ed)
      (fun g c hc => processThreadGroup_id env sd ed g c hid hc)
      (groupByThread page.messages) (groupBy_keys_nodup page.messages [] (by simp))

/-! ## C7 — fail-safe total -/

/-- C7: the reported total is the maximum of the exact count, the number of
returned items and the provider estimate, hence never smaller than
`items.length`. -/
theorem final_total_failsafe (env : GmailEnv) (u : String)
    (sd ed pt : Option String) (page : ListPage) (r : PageResult)
    (hp : env.listPage (buildInboxQuery sd ed) pt = .ok page)
    (h : getUserActivity env u sd ed pt = .ok r) :
    r.meta.total = max (exactCountPass env (buildInboxQuery sd ed) pt)
        (max r.items.length page.resultSizeEstimate) ∧
      r.items.length ≤ r.meta.total := by
  simp only [getUserActivity] at h
  split at h
  · simp at h
  · rename_i page2 hlp2
    have hpage : page2 = page := Except.ok.inj (hlp2.symm.trans hp)
    subst hpage
    simp only [Except.ok.injEq] at h
    subst h
    exact ⟨rfl, le_trans (le_max_left _ _) (le_max_right _ _)⟩

/-! ## C8 — a failing thread-detail fetch only omits that thread -/

theorem pushStub_filter_ne (tid : String) (m : MessageStub) (hm : m.threadId ≠ tid) :
    ∀ acc : List (String × List MessageStub),
      pushStub (acc.filter (fun g => g.1 != tid)) m =
        (pushStub acc m).filter (fun g => g.1 != tid) := by
  intro acc
  induction acc with
  | nil =>
    show ([(m.threadId, [m])] : List (String × List MessageStub)) =
      [(m.threadId, [m])].filter (fun g => g.1 != tid)
    rw [List.filter_cons]
    simp [bne_iff_ne.mpr hm]
  | cons g rest ih =>
    obtain ⟨k, v⟩ := g
    by_cases hk : k = tid
    · subst hk
      have hkm : ¬ k = m.threadId := fun h => hm h.symm
      have h1 : ((k, v) :: rest).filter (fun g => g.1 != k) =
          rest.filter (fun g => g.1 != k) := by
        rw [List.filter_cons]
        simp
      have h2 : pushStub ((k, v) :: rest) m = (k, v) :: pushStub rest m := by
        simp only [pushStub, if_neg hkm]
      rw [h1, ih, h2, List.filter_cons]
      simp
    · have hkb : (k != tid) = true := bne_iff_ne.mpr hk
      have h1 : ((k, v) :: rest).filter (fun g => g.1 != tid) =
          (k, v) :: rest.filter (fun g => g.1 != tid) := by
        rw [List.filter_cons]
        simp [hkb]
      by_cases hkm : k = m.threadId
      · have h2 : pushStub ((k, v) :: rest) m = (k, v ++ [m]) :: rest := by
          simp only [pushStub, if_pos hkm]
        have h3 : pushStub ((k, v) :: rest.filter (fun g => g.1 != tid)) m =
            (k, v ++ [m]) :: rest.filter (fun g => g.1 != tid) := by
          simp only [pushStub, if_pos hkm]
        rw [h1, h2, h3, List.filter_cons]
        simp [hkb]
      · have h2 : pushStub ((k, v) :: rest) m = (k, v) :: pushStub rest m := by
          simp only [pushStub, if_neg hkm]
        have h3 : pushStub ((k, v) :: rest.filter (fun g => g.1 != tid)) m =
            (k, v) :: pushStub (rest.filter (fun g => g.1 != tid)) m := by
          simp only [pushStub, if_neg hkm]
        rw [h1, h2, h3, ih, List.filter_cons]
        simp [hkb]

theorem pushStub_filter_self (m : MessageStub) :
    ∀ acc : List (String × List MessageStub),
      (pushStub acc m).filter (fun g => g.1 != m.threadId) =
        acc.filter (fun g => g.1 != m.threadId) := by
  intro acc
  induction acc with
  | nil =>
    show ([(m.threadId, [m])] : List (String × List MessageStub)).filter
      (fun g => g.1 != m.threadId) = []
    rw [List.filter_cons]
    simp
  | cons g rest ih =>
    obtain ⟨k, v⟩ := g
    by_cases hkm : k = m.threadId
    · have h2 : pushStub ((k, v) :: rest) m = (k, v ++ [m]) :: rest := by
        simp only [pushStub, if_pos hkm]
      rw [h2, List.filter_cons, List.filter_cons]
      have hfalse : (k != m.threadId) = false := by
        rw [hkm]
        exact bne_self_eq_false m.threadId
      simp [hfalse]
    · have hkb : (k != m.threadId) = true := bne_iff_ne.mpr hkm
      have h2 : pushStub ((k, v) :: rest) m = (k, v) :: pushStub rest m := by
        simp only [pushStub, if_neg hkm]
      rw [h2, List.filter_cons, List.filter_cons]
      simp only [hkb, ite_true]
      rw [ih]

theorem groupBy_filter (tid : String) :
    ∀ (stubs : List MessageStub) (acc : List (String × List MessageStub)),
      (stubs.filter (fun s0 => s0.threadId != tid)).foldl pushStub
          (acc.filter (fun g => g.1 != tid)) =
        (stubs.foldl pushStub acc).filter (fun g => g.1 != tid) := by
  intro stubs
  induction stubs with
  | nil => intro acc; rfl
  | cons m stubs ih =>
    intro acc
    by_cases hm : m.threadId = tid
    · subst hm
      simp only [List.filter_cons, bne_self_eq_false, Bool.false_eq_true, if_neg, ite_false,
        List.foldl_cons]
      rw [← pushStub_filter_self m acc]
      exact ih (pushStub acc m)
    · have hmb : (m.threadId != tid) = true := bne_iff_ne.mpr hm
      simp only [List.filter_cons, hmb, ite_true, List.foldl_cons]
      rw [pushStub_filter_ne tid m hm acc]
      exact ih (pushStub acc m)

theorem filterMap_filter_of_none {α β : Type} (f : α → Option β) (p : α → Bool)
    (hf : ∀ g, p g = false → f g = none) :
    ∀ gs : List α, (gs.filter p).filterMap f = gs.filterMap f := by
  intro gs
  induction gs with
  | nil => rfl
  | cons g gs ih =>
    cases hp : p g with
    | true => simp only [List.filter_cons, hp, ite_true, List.filterMap_cons, ih]
    | false =>
      simp only [List.filter_cons, hp, Bool.false_eq_true, if_neg, ite_false,
        List.filterMap_cons, hf g hp, ih]

/-- C8: when the thread-detail fetch for one thread id fails, the page's
items are exactly the items computed from the page without that thread's
stubs, and the request still returns a well-formed page result whenever the
page-list call succeeded. -/
theorem thread_failure_skipped (env : GmailEnv) (sd ed : Option String) (tid : String)
    (hfail : env.getThread tid = .error ()) :
    (∀ stubs : List MessageStub, pageItems env sd ed stubs =
      pageItems env sd ed (stubs.filter (fun s0 => s0.threadId != tid))) ∧
    (∀ (u : String) (pt : Option String) (page : ListPage),
      env.listPage (buildInboxQuery sd ed) pt = .ok page →
      ∃ r, getUserActivity env u sd ed pt = .ok r ∧
        r.items = pageItems env sd ed
          (page.messages.filter (fun s0 => s0.threadId != tid))) := by
  have hdrop : ∀ g : String × List MessageStub, (g.1 != tid) = false →
      processThreadGroup env sd ed g = none := by
    intro g hg
    have : g.1 = tid := by
      by_contra hne
      rw [bne_iff_ne.mpr hne] at hg
      exact Bool.true_eq_false.mp hg
    unfold processThreadGroup
    rw [this, hfail]
  have hitems : ∀ stubs : List MessageStub, pageItems env sd ed stubs =
      pageItems env sd ed (stubs.filter (fun s0 => s0.threadId != tid)) := by
    intro stubs
    unfold pageItems
    congr 1
    have hgrp : groupByThread (stubs.filter (fun s0 => s0.threadId != tid)) =
        (groupByThread stubs).filter (fun g => g.1 != tid) := by
      unfold groupByThread
      have := groupBy_filter tid stubs []
      simpa using this
    rw [hgrp]
    exact (filterMap_filter_of_none (processThreadGroup env sd ed)
      (fun g => g.1 != tid) hdrop (groupByThread stubs)).symm
  refine ⟨hitems, ?_⟩
  intro u pt page hp
  have hrun : getUserActivity env u sd ed pt = Except.ok
      { items := pageItems env sd ed page.messages
        meta := { fetched := page.messages.length
                  nextToken := page.nextPageToken
                  total := max (exactCountPass env (buildInboxQuery sd ed) pt)
                    (max (pageItems env sd ed page.messages).length page.resultSizeEstimate)
                  query_debug := buildInboxQuery sd ed } } := by
    simp only [getUserActivity, hp]
  exact ⟨_, hrun, hitems page.messages⟩

/-! ## C9 — exact-count pass: first page only, bounded loop, soft failure -/

theorem countGo_pages_le : ∀ (k : Nat) (env : GmailEnv) (q : String)
    (tok : Option String) (pc : Nat) (acc : List String) (n : Nat) (l : List String),
    51 - pc ≤ k → pc ≤ 50 → countGo env q tok pc acc = .ok (n, l) → n ≤ 51 := by
  intro k
  induction k with
  | zero => intro env q tok pc acc n l hk hpc _; omega
  | succ k ih =>
    intro env q tok pc acc n l hk hpc h
    unfold countGo at h
    cases hcp : env.countPage q tok with
    | error e => rw [hcp] at h; simp at h
    | ok page =>
      rw [hcp] at h
      simp only at h
      by_cases hgt : pc + 1 > 50
      · rw [dif_pos hgt] at h
        simp only [Except.ok.injEq, Prod.mk.injEq] at h
        omega
      · rw [dif_neg hgt] at h
        cases hnt : page.nextPageToken with
        | none =>
          rw [hnt] at h
          simp only [Except.ok.injEq, Prod.mk.injEq] at h
          omega
        | some t =>
          rw [hnt] at h
          exact ih env q (some t) (pc + 1) _ n l (by omega) (by omega) h

theorem countGo_cursor_exhausted (env : GmailEnv) (q : String) (tok : Option String)
    (pc : Nat) (acc : List String) (page : CountPage)
    (hcp : env.countPage q tok = .ok page) (hnt : page.nextPageToken = none) :
    countGo env q tok pc acc = .ok (pc + 1, addUnique acc page.threadIds) := by
  unfold countGo
  rw [hcp]
  simp only
  by_cases hgt : pc + 1 > 50
  · rw [dif_pos hgt]
  · rw [dif_neg hgt, hnt]

/-- C9 (amended): the exact-count pass runs only on a fresh first page (a
supplied cursor short-circuits it to 0); the loop performs at most 51 page
fetches (`pageCount` counts one per fetch); it returns right after any page
with no further cursor; and a failed pass degrades the exact total to 0. -/
theorem exact_count_pass_amended :
    (∀ (env : GmailEnv) (q t : String), exactCountPass env q (some t) = 0) ∧
    (∀ (env : GmailEnv) (q : String) (n : Nat) (l : List String),
      countGo env q none 0 [] = .ok (n, l) → n ≤ 51) ∧
    (∀ (env : GmailEnv) (q : String) (tok : Option String) (pc : Nat)
      (acc : List String) (page : CountPage),
      env.countPage q tok = .ok page → page.nextPageToken = none →
      countGo env q tok pc acc = .ok (pc + 1, addUnique acc page.threadIds)) ∧
    (∀ (env : GmailEnv) (q : String), exactThreadCount env q = .error () →
      exactCountPass env q none = 0) := by
  refine ⟨fun env q t => rfl, ?_, countGo_cursor_exhausted, ?_⟩
  · intro env q n l h
    exact countGo_pages_le 51 env q none 0 [] n l (by omega) (by omega) h
  · intro env q h
    unfold exactCountPass
    rw [h]

theorem cursorEnv_chain : ∀ (k pc : Nat) (tok : Option String) (acc : List String)
    (q : String), 50 - pc = k → pc ≤ 50 →
    countGo cursorEnv q tok pc acc = .ok (51, acc) := by
  intro k
  induction k with
  | zero =>
    intro pc tok acc q hk hpc
    have hpc50 : pc = 50 := by omega
    subst hpc50
    unfold countGo
    rfl
  | succ k ih =>
    intro pc tok acc q hk hpc
    have hlt : pc + 1 ≤ 50 := by omega
    unfold countGo
    show (let acc2 := addUnique acc ([] : List String);
      if _h : pc + 1 > 50 then Except.ok (pc + 1, acc2)
      else countGo cursorEnv q (some "next") (pc + 1) acc2) = .ok (51, acc)
    rw [dif_neg (by omega : ¬ pc + 1 > 50)]
    exact ih (pc + 1) (some "next") (addUnique acc []) q (by omega) hlt

/-- C9 counterexample: with a provider that always returns a cursor, the count
loop performs 51 page fetches, one more than the claimed 50-page ceiling. -/
theorem count_loop_51_pages_counterexample :
    countGo cursorEnv "q" none 0 [] = .ok (51, []) ∧ ¬(51 ≤ 50) :=
  ⟨cursorEnv_chain 50 0 none [] "q" rfl (by omega), by omega⟩

/-- C9 witness: the amended theorem applied to concrete providers — a
supplied cursor yields 0, the always-cursor provider stays within the 51
bound, a single page ends the loop after one fetch, and the all-failing
provider degrades to 0. -/
theorem exact_count_pass_amended_witness :
    exactCountPass sampleEnv "q" (some "tok") = 0 ∧
    (51 : Nat) ≤ 51 ∧
    countGo onePageEnv "q" none 0 [] = .ok (0 + 1, addUnique [] ["T1", "T1", "T2"]) ∧
    exactCountPass sampleEnv "q" none = 0 := by
  refine ⟨exact_count_pass_amended.1 sampleEnv "q" "tok", ?_, ?_, ?_⟩
  · exact exact_count_pass_amended.2.1 cursorEnv "q" 51 []
      (cursorEnv_chain 50 0 none [] "q" rfl (by omega))
  · exact exact_count_pass_amended.2.2.1 onePageEnv "q" none 0 [] ⟨["T1", "T1", "T2"], none⟩ rfl rfl
  · refine exact_count_pass_amended.2.2.2 sampleEnv "q" ?_
    unfold exactThreadCount countGo
    rfl

theorem pipeEnv_id (tid : String) (td : RawThread)
    (h : pipeEnv.getThread tid = .ok td) : td.id = tid := by
  have h2 : (if tid == "TBAD" then (.error () : Except Unit RawThread)
      else .ok ⟨tid, [mkMsg "g1" 1000 ["INBOX"]
        [⟨"From", "A <a@b.c>"⟩, ⟨"Subject", "S"⟩] []]⟩) = .ok td := h
  by_cases hb : (tid == "TBAD") = true
  · rw [if_pos hb] at h2
    exact absurd h2 (by simp)
  · rw [if_neg hb] at h2
    have := Except.ok.inj h2
    rw [← this]

/-- C6 witness: a full run against `pipeEnv` returns items with pairwise
distinct thread ids. -/
theorem items_dedup_invariant_witness :
    ∃ r, getUserActivity pipeEnv "u" none none (some "tok") = .ok r ∧
      (r.items.map (fun c => c.id)).Nodup := by
  obtain ⟨r, hr⟩ : ∃ r, getUserActivity pipeEnv "u" none none (some "tok") = .ok r :=
    ⟨_, rfl⟩
  exact ⟨r, hr, items_dedup_invariant pipeEnv "u" none none (some "tok") r pipeEnv_id hr⟩

/-- C7 witness: on the same run the reported total is the three-way maximum
and at least the item count. -/
theorem final_total_failsafe_witness :
    ∃ r, getUserActivity pipeEnv "u" none none (some "tok") = .ok r ∧
      r.meta.total = max (exactCountPass pipeEnv (buildInboxQuery none none) (some "tok"))
        (max r.items.length 3) ∧
      r.items.length ≤ r.meta.total := by
  obtain ⟨r, hr⟩ : ∃ r, getUserActivity pipeEnv "u" none none (some "tok") = .ok r :=
    ⟨_, rfl⟩
  have := final_total_failsafe pipeEnv "u" none none (some "tok")
    ⟨[⟨"s1", "T1"⟩, ⟨"s2", "TBAD"⟩], none, 3⟩ r rfl hr
  exact ⟨r, hr, this.1, this.2⟩

/-- C8 witness: with `pipeEnv` failing on thread `TBAD`, the page's items
equal the items of the page without the `TBAD` stubs, and the run still
returns a well-formed result. -/
theorem thread_failure_skipped_witness :
    (pageItems pipeEnv none none [⟨"s1", "T1"⟩, ⟨"s2", "TBAD"⟩] =
      pageItems pipeEnv none none
        ([⟨"s1", "T1"⟩, ⟨"s2", "TBAD"⟩].filter (fun s0 => s0.threadId != "TBAD"))) ∧
    (∃ r, getUserActivity pipeEnv "u" none none (some "tok") = .ok r ∧
      r.items = pageItems pipeEnv none none
        ([⟨"s1", "T1"⟩, ⟨"s2", "TBAD"⟩].filter (fun s0 => s0.threadId != "TBAD"))) := by
  have hthm := thread_failure_skipped pipeEnv none none "TBAD" rfl
  exact ⟨hthm.1 _, hthm.2 "u" (some "tok") ⟨[⟨"s1", "T1"⟩, ⟨"s2", "TBAD"⟩], none, 3⟩ rfl⟩

end Hub
